import Mathlib

/-!
Verification development for the barcode-generator application.

The definitions below are shallow embeddings of the JavaScript source:
`validateCodes`, the `validate-codes` / `generate-document` IPC handlers
(src/main.js), the docx grid construction in `createDocument`
(src/main.js), the PDF page layout in `createPdfDocument` and the xlsx
cell writes in `createExcelDocument` (scripts file). Strings of raw
input text are embedded as `List Char`; machine numbers are `Nat`/`Int`
(all arithmetic in the relevant code paths is exact small-integer
arithmetic).
-/

/-- A validation error as pushed by `validateCodes` in src/main.js:
`{ line: index + 1, code, message }`. -/
structure VError where
  line : Nat
  code : String
  message : String
deriving DecidableEq

/-- Embedding of the regex test `/^0\d/.test(code)`: the first character
is the ASCII digit `0` and the second character is an ASCII digit. -/
def hasLeadingZero (code : String) : Bool :=
  match code.data with
  | '0' :: c :: _ => c.isDigit
  | _ => false

/-- The message built in src/main.js line 49. -/
def leadingZeroMessage (code : String) : String :=
  "Code \"" ++ code ++ "\" has a leading zero"

/-- The `codes.forEach((code, index) => ...)` loop of `validateCodes`,
with `start` the number of codes already scanned. -/
def validateCodesAux (start : Nat) : List String → List VError
  | [] => []
  | code :: rest =>
    (if hasLeadingZero code then
        [⟨start + 1, code, leadingZeroMessage code⟩]
      else []) ++ validateCodesAux (start + 1) rest

/-- `validateCodes` from src/main.js lines 44-53. -/
def validateCodes (codes : List String) : List VError :=
  validateCodesAux 0 codes

/-- Page height in points of the LETTER page used by `createPdfDocument`. -/
def pdfPageHeight : Nat := 792

/-- Page margin in points used by `createPdfDocument`. -/
def pdfMargin : Nat := 36

/-- Row height (`cellHeight`) in points used by `createPdfDocument`. -/
def pdfCellHeight : Nat := 50

/-- One drawn barcode cell of the PDF layout: the code, the 0-based page
index (count of `addPage` calls), the global 0-based row index, the
0-based column index, and the vertical position `currentY` at which the
row is drawn. -/
structure PdfPlacement where
  code : String
  page : Nat
  row : Nat
  col : Nat
  y : Nat
deriving DecidableEq

/-- Fuel-based embedding of the nested placement loops of
`createPdfDocument`: the outer loop steps `i` by `columnsPerRow`,
breaking to a new page when `currentY + cellHeight` would pass
`pageHeight - margin`; the inner loop draws the next `columnsPerRow`
codes (fewer in a short final row). `fuel` bounds the outer iterations;
`codes.length` always suffices when `columnsPerRow ≥ 1` (for
`columnsPerRow = 0` the JS loop does not terminate). -/
def pdfLayoutAux (cols : Nat) :
    Nat → List String → Nat → Nat → Nat → List PdfPlacement
  | 0, _, _, _, _ => []
  | _, [], _, _, _ => []
  | fuel + 1, c :: cs, r, p, y =>
    let brk := pdfPageHeight - pdfMargin < y + pdfCellHeight
    let p' := if brk then p + 1 else p
    let y' := if brk then pdfMargin else y
    (((c :: cs).take cols).enum.map
        (fun jc => (⟨jc.2, p', r, jc.1, y'⟩ : PdfPlacement)))
      ++ pdfLayoutAux cols fuel ((c :: cs).drop cols) (r + 1) p' (y' + pdfCellHeight)

/-- The placements drawn by `createPdfDocument codes columnsPerRow`. -/
def createPdfDocumentPlacements (codes : List String) (cols : Nat) :
    List PdfPlacement :=
  pdfLayoutAux cols codes.length codes 0 0 pdfMargin

/-- Closed form of a single PDF placement: starting a layout run at
global row `r`, page `p`, with `k` rows already placed on the current
page, the asset `m` positions later lands as computed here (14 is the
per-page row capacity `(792 - 2*36) / 50`). -/
def pdfPlace (cols r p k m : Nat) (c : String) : PdfPlacement :=
  ⟨c, p + (k + m / cols) / 14, r + m / cols, m % cols,
    pdfMargin + pdfCellHeight * ((k + m / cols) % 14)⟩

/-- Spec-side closed form of the whole PDF layout, one `pdfPlace` per
asset, `m` counting assets already placed. -/
def pdfPlacedFrom (cols r p k : Nat) : Nat → List String → List PdfPlacement
  | _, [] => []
  | m, c :: cs => pdfPlace cols r p k m c :: pdfPlacedFrom cols r p k (m + 1) cs

/-- Number of distinct row indices drawn on page `q`. -/
def rowsOnPage (placements : List PdfPlacement) (q : Nat) : Nat :=
  ((placements.filter (fun pl => pl.page == q)).map (fun pl => pl.row)).dedup.length

/-- One cell of the docx table built by `createDocument`: either a
barcode cell carrying its code, or the borderless padding cell pushed
for `idx >= barcodes.length`. Every cell in the source sets
`borders: cellBorders` with `BorderStyle.NONE`, recorded here as
`hasVisibleBorder := false`. -/
structure DocxCell where
  content : Option String
  hasVisibleBorder : Bool
deriving DecidableEq

/-- The inner `for (let j = 0; j < columnsPerRow; j++)` loop of
`createDocument`: the row of cells starting at barcode index `i`. -/
def docxRowCells (barcodes : List String) (cols i : Nat) : List DocxCell :=
  (List.range cols).map (fun j =>
    if h : i + j < barcodes.length then ⟨some (barcodes.get ⟨i + j, h⟩), false⟩
    else ⟨none, false⟩)

/-- The outer `for (let i = 0; i < barcodes.length; i += columnsPerRow)`
loop of `createDocument`, fuel-bounded (`barcodes.length` iterations
always suffice when `columnsPerRow ≥ 1`). -/
def docxRowsAux (barcodes : List String) (cols : Nat) :
    Nat → Nat → List (List DocxCell)
  | 0, _ => []
  | fuel + 1, i =>
    if i < barcodes.length then
      docxRowCells barcodes cols i :: docxRowsAux barcodes cols fuel (i + cols)
    else []

/-- The table rows built by `createDocument codes columnsPerRow`
in src/main.js. -/
def createDocumentRows (barcodes : List String) (cols : Nat) :
    List (List DocxCell) :=
  docxRowsAux barcodes cols barcodes.length 0

/-- Total number of empty padding cells in a docx row list. -/
def emptyCellCount (rows : List (List DocxCell)) : Nat :=
  (rows.map (fun row => (row.filter (fun cell => cell.content.isNone)).length)).sum

/-- One worksheet text-cell write performed by `createExcelDocument`:
`worksheet.getCell(rowIndex + 1, j + 1)` receives the code. (The image
anchored above it is written for exactly the same set of indices.) -/
structure XlsxCellWrite where
  rowIdx : Nat
  colIdx : Nat
  code : String
deriving DecidableEq

/-- Fuel-bounded embedding of the two loops of `createExcelDocument`:
the outer loop steps `i` by `columnsPerRow` and `rowIndex` by 2; the
inner loop writes a cell only when `idx < barcodes.length` — nothing is
written for the remaining columns of a short final row. -/
def excelWritesAux (codes : List String) (cols : Nat) :
    Nat → Nat → Nat → List XlsxCellWrite
  | 0, _, _ => []
  | fuel + 1, i, rowIndex =>
    if i < codes.length then
      (((codes.drop i).take cols).enum.map
          (fun jc => (⟨rowIndex + 1, jc.1 + 1, jc.2⟩ : XlsxCellWrite)))
        ++ excelWritesAux codes cols fuel (i + cols) (rowIndex + 2)
    else []

/-- The text-cell writes of `createExcelDocument codes columnsPerRow`
(`rowIndex` starts at 1). -/
def createExcelCellWrites (codes : List String) (cols : Nat) :
    List XlsxCellWrite :=
  excelWritesAux codes cols codes.length 0 1

/-- The whitespace class stripped by JavaScript `String.prototype.trim`
(restricted to the ASCII range, which is all the relevant inputs use). -/
def isJsSpace (c : Char) : Bool :=
  c == ' ' || c == '\t' || c == '\n' || c == '\r' || c == '\x0b' || c == '\x0c'

/-- Strip leading whitespace. -/
def trimLeadingWs (l : List Char) : List Char := l.dropWhile isJsSpace

/-- Strip trailing whitespace. -/
def trimTrailingWs (l : List Char) : List Char :=
  (l.reverse.dropWhile isJsSpace).reverse

/-- Embedding of `c.trim()`: strip whitespace from both ends. -/
def jsTrim (l : List Char) : List Char := trimLeadingWs (trimTrailingWs l)

/-- Embedding of `codesText.split('\n')`: split at every newline
character; `n` newlines yield `n + 1` pieces. -/
def splitOnNl : List Char → List (List Char)
  | [] => [[]]
  | c :: rest =>
    if c = '\n' then [] :: splitOnNl rest
    else
      match splitOnNl rest with
      | [] => [[c]]
      | r :: rs => (c :: r) :: rs

/-- The shared preamble of both IPC handlers:
`codesText.split('\n').map(c => c.trim()).filter(c => c.length > 0)`. -/
def extractCodes (text : List Char) : List String :=
  ((splitOnNl text).map (fun l => String.mk (jsTrim l))).filter
    (fun s => decide (0 < s.length))

/-- The `validate-codes` IPC handler: returns `{ codes, errors }`. -/
def validateRequest (text : List Char) : List String × List VError :=
  (extractCodes text, validateCodes (extractCodes text))

/-- Joins lines with a separator: the raw text whose lines are the given
ones, separated by `sep` (`['\n']` for LF input, `['\r', '\n']` for CRLF
input). -/
def joinWithSep (sep : List Char) : List (List Char) → List Char
  | [] => []
  | [l] => l
  | l :: ls => l ++ sep ++ joinWithSep sep ls

/-- A UTC instant as the generation-time `new Date()`: UTC calendar and
clock fields, plus the zone offset in minutes to ADD to UTC to obtain
local wall-clock time (the negation of JS `getTimezoneOffset()`; all
real zone offsets are whole minutes and less than a day). -/
structure JsDate where
  year : Nat
  month : Nat
  day : Nat
  hour : Nat
  minute : Nat
  second : Nat
  tzOffsetMinutes : Int
deriving DecidableEq

/-- Two-digit zero-padded decimal rendering (all date fields that use it
are below 100). -/
def pad2 (n : Nat) : String :=
  String.mk [Nat.digitChar (n / 10 % 10), Nat.digitChar (n % 10)]

/-- Four-digit zero-padded decimal rendering (years below 10000). -/
def pad4 (n : Nat) : String :=
  String.mk [Nat.digitChar (n / 1000 % 10), Nat.digitChar (n / 100 % 10),
    Nat.digitChar (n / 10 % 10), Nat.digitChar (n % 10)]

/-- The `YYYY-MM-DD` rendering of the UTC calendar date. -/
def isoDateString (d : JsDate) : String :=
  pad4 d.year ++ "-" ++ pad2 d.month ++ "-" ++ pad2 d.day

/-- Embedding of `Date.prototype.toISOString`: the UTC fields in
`YYYY-MM-DDTHH:MM:SS.sssZ` form (milliseconds modelled as 000). -/
def toISOString (d : JsDate) : String :=
  isoDateString d ++ ("T" ++ pad2 d.hour ++ ":" ++ pad2 d.minute ++ ":" ++
    pad2 d.second ++ ".000Z")

/-- Minutes past local midnight of the local wall-clock time. -/
def localMinutesOfDay (d : JsDate) : Nat :=
  (((d.hour * 60 + d.minute : Int) + d.tzOffsetMinutes) % 1440).toNat

/-- Local wall-clock hour. -/
def localHour (d : JsDate) : Nat := localMinutesOfDay d / 60

/-- Local wall-clock minute. -/
def localMinuteOfHour (d : JsDate) : Nat := localMinutesOfDay d % 60

/-- The zone annotation `toTimeString` appends after the clock time; its
content is never inspected (only the first 8 characters of the result
are sliced off), so it is modelled as a fixed representative. -/
def timeStringZoneSuffix : String := " GMT+0000 (Local Time)"

/-- The `HH:MM:SS` rendering of the LOCAL wall-clock time. -/
def localClockString (d : JsDate) : String :=
  pad2 (localHour d) ++ ":" ++ pad2 (localMinuteOfHour d) ++ ":" ++ pad2 d.second

/-- Embedding of `Date.prototype.toTimeString`: the LOCAL clock time
`HH:MM:SS` followed by a zone annotation. -/
def toTimeString (d : JsDate) : String :=
  localClockString d ++ timeStringZoneSuffix

/-- Embedding of `s.slice(0, n)` for ASCII strings. -/
def jsSliceTo (s : String) (n : Nat) : String := String.mk (s.data.take n)

/-- Embedding of `s.replace(/:/g, '-')`. -/
def jsReplaceColons (s : String) : String :=
  String.mk (s.data.map (fun c => if c = ':' then '-' else c))

/-- The default save filename built in the `generate-document` handler:
`toISOString().slice(0, 10)` for the date part and
`toTimeString().slice(0, 8).replace(/:/g, '-')` for the time part. -/
def defaultFilename (now : JsDate) : String :=
  "barcode_" ++ jsSliceTo (toISOString now) 10 ++ "_" ++
    jsReplaceColons (jsSliceTo (toTimeString now) 8) ++ ".docx"

/-- Gregorian leap-year predicate. -/
def isLeapYear (y : Nat) : Bool :=
  (y % 4 == 0 && y % 100 != 0) || y % 400 == 0

/-- Days in a Gregorian month. -/
def daysInMonth (y m : Nat) : Nat :=
  if m == 2 then (if isLeapYear y then 29 else 28)
  else if m == 4 || m == 6 || m == 9 || m == 11 then 30 else 31

/-- The calendar day after `(y, m, d)`. -/
def nextCivilDay (y m d : Nat) : Nat × Nat × Nat :=
  if d < daysInMonth y m then (y, m, d + 1)
  else if m < 12 then (y, m + 1, 1)
  else (y + 1, 1, 1)

/-- The calendar day before `(y, m, d)`. -/
def prevCivilDay (y m d : Nat) : Nat × Nat × Nat :=
  if 1 < d then (y, m, d - 1)
  else if 1 < m then (y, m - 1, daysInMonth y (m - 1))
  else (y - 1, 12, 31)

/-- Modelled from the spec: the LOCAL calendar date of the instant, the
date the claim says the filename's date part is taken from. Zone
offsets are less than one day, so the local date is the UTC date or one
of its calendar neighbours. -/
def localYMD (dt : JsDate) : Nat × Nat × Nat :=
  let t : Int := (dt.hour * 60 + dt.minute : Int) + dt.tzOffsetMinutes
  if t < 0 then prevCivilDay dt.year dt.month dt.day
  else if 1440 ≤ t then nextCivilDay dt.year dt.month dt.day
  else (dt.year, dt.month, dt.day)

/-- Modelled from the spec: the filename the claim describes, with both
the date part and the time part taken from local generation time. -/
def specLocalFilename (dt : JsDate) : String :=
  "barcode_" ++ pad4 (localYMD dt).1 ++ "-" ++ pad2 (localYMD dt).2.1 ++ "-" ++
    pad2 (localYMD dt).2.2 ++ "_" ++ pad2 (localHour dt) ++ "-" ++
    pad2 (localMinuteOfHour dt) ++ "-" ++ pad2 dt.second ++ ".docx"

/-- The result of `dialog.showSaveDialog` (`filePath` may be absent). -/
structure DialogResult where
  filePath : Option String
  canceled : Bool
deriving DecidableEq

/-- A value stored in the module-level `mockSaveDialogResponse`. -/
structure MockResponse where
  filePath : Option String
  canceled : Bool
deriving DecidableEq

/-- The object returned by the `generate-document` handler; each source
return site sets exactly the fields present in the corresponding JS
object literal, all others are `none`. -/
structure GenOutcome where
  success : Bool
  errors : Option (List VError)
  canceled : Option Bool
  filePath : Option String
  error : Option String
deriving DecidableEq

/-- One run of the `generate-document` handler, with its observable
effects: the module state after the run, the returned outcome, the
codes passed to the barcode renderer (in call order), the file write
performed (path and bytes), and the `defaultPath` handed to a real save
dialog when one is shown. -/
structure HandlerResult (β : Type) where
  state : Option MockResponse
  outcome : GenOutcome
  rendered : List String
  written : Option (String × β)
  dialogDefault : Option String
deriving DecidableEq

/-- The sequential `for (const code of codes)` rendering loop of
`createDocument`: renders codes in order, stopping at the first
renderer failure (an `await` throw); also returns the trace of codes
actually passed to the renderer. -/
def renderAllAux {α : Type} (render : String → Except String α) :
    List String → List String × Except String (List (String × α))
  | [] => ([], Except.ok [])
  | c :: cs =>
    match render c with
    | Except.error e => ([c], Except.error e)
    | Except.ok img =>
      match renderAllAux render cs with
      | (tr, Except.error e) => (c :: tr, Except.error e)
      | (tr, Except.ok rest) => (c :: tr, Except.ok ((c, img) :: rest))

/-- `createDocument` as run by the handler: render every code, then lay
out and pack the document into one in-memory buffer (`packer` abstracts
the docx table construction plus `Packer.toBuffer`; any throw inside the
handler's `try` becomes an `error` result). -/
def createDocumentResult {α β : Type} (render : String → Except String α)
    (packer : List (String × α) → Except String β) (codes : List String) :
    List String × Except String β :=
  match renderAllAux render codes with
  | (tr, Except.error e) => (tr, Except.error e)
  | (tr, Except.ok barcodes) => (tr, packer barcodes)

/-- Dialog resolution of the handler: the mock response when
`mockSaveDialogResponse` is set, the real dialog result otherwise. -/
def resolveDialog (st : Option MockResponse) (dialog : DialogResult) :
    Option String × Bool :=
  match st with
  | some m => (m.filePath, m.canceled)
  | none => (dialog.filePath, dialog.canceled)

/-- JS truthiness of `!filePath`: absent or empty string. -/
def jsFalsyPath : Option String → Bool
  | none => true
  | some p => p.length == 0

/-- The `generate-document` IPC handler (src/main.js lines 185-230):
extract codes, validate, build the document buffer in memory, resolve
the save destination (mock or real dialog), and only then write. -/
def handleGenerateDocument {α β : Type} (st : Option MockResponse)
    (render : String → Except String α)
    (packer : List (String × α) → Except String β)
    (dialog : DialogResult) (now : JsDate) (codesText : List Char) :
    HandlerResult β :=
  let codes := extractCodes codesText
  let errors := validateCodes codes
  if 0 < errors.length then
    ⟨st, ⟨false, some errors, none, none, none⟩, [], none, none⟩
  else
    match createDocumentResult render packer codes with
    | (tr, Except.error e) =>
      ⟨st, ⟨false, none, none, none, some e⟩, tr, none, none⟩
    | (tr, Except.ok buffer) =>
      let shown : Option String :=
        match st with
        | some _ => none
        | none => some (defaultFilename now)
      let resolved := resolveDialog st dialog
      if resolved.2 || jsFalsyPath resolved.1 then
        ⟨st, ⟨false, none, some true, none, none⟩, tr, none, shown⟩
      else
        match resolved.1 with
        | some p => ⟨st, ⟨true, none, none, some p, none⟩, tr, some (p, buffer), shown⟩
        | none => ⟨st, ⟨false, none, some true, none, none⟩, tr, none, shown⟩

/-- The renderer-facing entry point (`window.api.generateDocument` in
preload.js): it forwards BOTH `codesText` and `format` over IPC, but the
handler's parameter list `(event, codesText)` binds only the text, so
the format argument is dropped. -/
def generateRequest {α β : Type} (st : Option MockResponse)
    (render : String → Except String α)
    (packer : List (String × α) → Except String β)
    (dialog : DialogResult) (now : JsDate) (codesText : List Char)
    (_format : String) : HandlerResult β :=
  handleGenerateDocument st render packer dialog now codesText

/-- The `e2e:set-mock-save-dialog` handler: overwrite the module-level
mock state. -/
def handleSetMockSaveDialog (_st : Option MockResponse)
    (response : MockResponse) : Option MockResponse × Bool :=
  (some response, true)

/-- The `e2e:clear-mock-save-dialog` handler: reset the module-level
mock state. -/
def handleClearMockSaveDialog (_st : Option MockResponse) :
    Option MockResponse × Bool :=
  (none, true)

/-- The `defaultPath` shown by the handler: only a real dialog (mock
state unset) receives the default filename. -/
def dialogDefaultShown (st : Option MockResponse) (now : JsDate) :
    Option String :=
  match st with
  | some _ => none
  | none => some (defaultFilename now)

-- ===== proofs =====

lemma validateCodesAux_line_bounds (codes : List String) :
    ∀ start, ∀ e ∈ validateCodesAux start codes,
      start + 1 ≤ e.line ∧ e.line ≤ start + codes.length := by
  induction codes with
  | nil => intro start e he; simp [validateCodesAux] at he
  | cons c rest ih =>
    intro start e he
    simp only [validateCodesAux, List.mem_append] at he
    rcases he with he | he
    · have he' : e = ⟨start + 1, c, leadingZeroMessage c⟩ := by
        split at he <;> simp_all
      subst he'
      simp only [List.length_cons]
      omega
    · have := ih (start + 1) e he
      simp only [List.length_cons]
      omega

lemma validateCodesAux_filter (codes : List String) :
    ∀ start i, ∀ h : i < codes.length,
      (validateCodesAux start codes).filter (fun e => e.line == start + i + 1) =
        if hasLeadingZero (codes.get ⟨i, h⟩) then
          [⟨start + i + 1, codes.get ⟨i, h⟩, leadingZeroMessage (codes.get ⟨i, h⟩)⟩]
        else [] := by
  induction codes with
  | nil => intro start i h; simp at h
  | cons c rest ih =>
    intro start i h
    simp only [validateCodesAux, List.filter_append]
    cases i with
    | zero =>
      have hrest : (validateCodesAux (start + 1) rest).filter
          (fun e => e.line == start + 0 + 1) = [] := by
        apply List.filter_eq_nil_iff.2
        intro e he
        have := validateCodesAux_line_bounds rest (start + 1) e he
        simp only [beq_iff_eq]
        omega
      rw [hrest]
      split
      · simp_all
      · simp_all
    | succ j =>
      have hj : j < rest.length := by simpa using h
      have hhead : (if hasLeadingZero c then
          [(⟨start + 1, c, leadingZeroMessage c⟩ : VError)] else []).filter
            (fun e => e.line == start + (j + 1) + 1) = [] := by
        split
        · simp only [List.filter_cons, List.filter_nil, beq_iff_eq]
          have hne : ¬(start + 1 = start + (j + 1) + 1) := by omega
          simp [hne]
        · rfl
      rw [hhead]
      have := ih (start + 1) j hj
      simp only [List.nil_append, List.get_cons_succ]
      have harith : start + 1 + j + 1 = start + (j + 1) + 1 := by omega
      rw [harith] at this
      exact this

lemma validateCodes_message (codes : List String) :
    ∀ e ∈ validateCodes codes, e.message = leadingZeroMessage e.code := by
  have : ∀ start, ∀ e ∈ validateCodesAux start codes,
      e.message = leadingZeroMessage e.code := by
    induction codes with
    | nil => intro start e he; simp [validateCodesAux] at he
    | cons c rest ih =>
      intro start e he
      simp only [validateCodesAux, List.mem_append] at he
      rcases he with he | he
      · split at he <;> simp_all
      · exact ih (start + 1) e he
  exact this 0

/-- Claim C1: `validateCodes` emits, for the code at 0-based index `i`,
exactly one error if and only if the code matches `^0\d`; that error has
line number `i + 1`, carries the offending code, and its message names
the code and states it has a leading zero. A lone `"0"`, `"0x"`, a
non-digit first character, and zeros after a delimiter (`M4018-028`)
produce no error. -/
theorem c1_validateCodes_leading_zero (codes : List String) (i : Nat)
    (h : i < codes.length) :
    ((validateCodes codes).filter (fun e => e.line == i + 1) =
      if hasLeadingZero (codes.get ⟨i, h⟩) then
        [⟨i + 1, codes.get ⟨i, h⟩, leadingZeroMessage (codes.get ⟨i, h⟩)⟩]
      else []) ∧
    (∀ e ∈ validateCodes codes, e.message = leadingZeroMessage e.code) ∧
    validateCodes ["0", "0x", "M4018-028", "x01"] = [] ∧
    validateCodes ["04018-28", "M4018-29"] =
      [⟨1, "04018-28", leadingZeroMessage "04018-28"⟩] := by
  refine ⟨?_, validateCodes_message codes, by decide, by decide⟩
  have := validateCodesAux_filter codes 0 i h
  simpa [validateCodes] using this

/-- Witness for C1 at the concrete input of spec Scenario A. -/
theorem c1_witness :
    (0 < (["04018-28", "M4018-29"] : List String).length) ∧
    ((validateCodes ["04018-28", "M4018-29"]).filter (fun e => e.line == 0 + 1) =
      if hasLeadingZero ((["04018-28", "M4018-29"] : List String).get ⟨0, by decide⟩) then
        [⟨0 + 1, (["04018-28", "M4018-29"] : List String).get ⟨0, by decide⟩,
          leadingZeroMessage ((["04018-28", "M4018-29"] : List String).get ⟨0, by decide⟩)⟩]
      else []) :=
  ⟨by decide, (c1_validateCodes_leading_zero ["04018-28", "M4018-29"] 0 (by decide)).1⟩

lemma pdfPlacedFrom_nil (cols r p k m : Nat) :
    pdfPlacedFrom cols r p k m [] = [] := rfl

lemma pdfPlacedFrom_append (cols r p k : Nat) (xs ys : List String) :
    ∀ m, pdfPlacedFrom cols r p k m (xs ++ ys) =
      pdfPlacedFrom cols r p k m xs ++ pdfPlacedFrom cols r p k (m + xs.length) ys := by
  induction xs with
  | nil => intro m; simp [pdfPlacedFrom]
  | cons c cs ih =>
    intro m
    simp only [List.cons_append, pdfPlacedFrom, List.append_eq]
    rw [ih (m + 1)]
    simp only [List.length_cons]
    have harith : m + 1 + cs.length = m + (cs.length + 1) := by omega
    rw [harith]

lemma pdfPlace_head (cols r p k m : Nat) (c : String) (hm : m < cols) :
    pdfPlace cols r p k m c =
      ⟨c, p + k / 14, r, m, pdfMargin + pdfCellHeight * (k % 14)⟩ := by
  unfold pdfPlace
  rw [Nat.div_eq_of_lt hm, Nat.mod_eq_of_lt hm]
  simp

lemma pdfPlace_shift (cols r p k m : Nat) (c : String) (hc : 1 ≤ cols) :
    pdfPlace cols r p k (cols + m) c =
      pdfPlace cols (r + 1) (p + k / 14) (k % 14 + 1) m c := by
  unfold pdfPlace
  have hdiv : (cols + m) / cols = m / cols + 1 := by
    rw [Nat.add_comm]; exact Nat.add_div_right m hc
  have hmod : (cols + m) % cols = m % cols := Nat.add_mod_left cols m
  rw [hdiv, hmod]
  have h1 : p + (k + (m / cols + 1)) / 14 =
      p + k / 14 + (k % 14 + 1 + m / cols) / 14 := by
    generalize m / cols = q; omega
  have h2 : r + (m / cols + 1) = r + 1 + m / cols := by omega
  have h3 : (k + (m / cols + 1)) % 14 = (k % 14 + 1 + m / cols) % 14 := by
    generalize m / cols = q; omega
  rw [h1, h2, h3]

lemma pdfPlacedFrom_shift (cols r p k : Nat) (hc : 1 ≤ cols) (ys : List String) :
    ∀ m, pdfPlacedFrom cols r p k (cols + m) ys =
      pdfPlacedFrom cols (r + 1) (p + k / 14) (k % 14 + 1) m ys := by
  induction ys with
  | nil => intro m; rfl
  | cons c cs ih =>
    intro m
    simp only [pdfPlacedFrom, pdfPlace_shift cols r p k m c hc]
    have harith : cols + m + 1 = cols + (m + 1) := by omega
    rw [harith, ih (m + 1)]

lemma pdf_enumFrom_map_eq (cols r p k : Nat) (xs : List String) :
    ∀ j0, j0 + xs.length ≤ cols →
      (xs.enumFrom j0).map
          (fun jc => (⟨jc.2, p + k / 14, r, jc.1,
            pdfMargin + pdfCellHeight * (k % 14)⟩ : PdfPlacement)) =
        pdfPlacedFrom cols r p k j0 xs := by
  induction xs with
  | nil => intro j0 _; rfl
  | cons c cs ih =>
    intro j0 hle
    have hj0 : j0 < cols := by simp only [List.length_cons] at hle; omega
    simp only [List.enumFrom, List.map_cons, pdfPlacedFrom]
    rw [pdfPlace_head cols r p k j0 c hj0]
    rw [ih (j0 + 1) (by simp only [List.length_cons] at hle; omega)]

lemma pdf_enum_map_eq (cols r p k : Nat) (xs : List String)
    (hle : xs.length ≤ cols) :
    xs.enum.map
        (fun jc => (⟨jc.2, p + k / 14, r, jc.1,
          pdfMargin + pdfCellHeight * (k % 14)⟩ : PdfPlacement)) =
      pdfPlacedFrom cols r p k 0 xs :=
  pdf_enumFrom_map_eq cols r p k xs 0 (by omega)

lemma pdfLayoutAux_nil (cols fuel r p y : Nat) :
    pdfLayoutAux cols fuel [] r p y = [] := by
  cases fuel <;> rfl

lemma pdfLayoutAux_closed (cols : Nat) (hc : 1 ≤ cols) :
    ∀ fuel (codes : List String) r p k, codes.length ≤ fuel → k ≤ 14 →
      pdfLayoutAux cols fuel codes r p (pdfMargin + pdfCellHeight * k) =
        pdfPlacedFrom cols r p k 0 codes := by
  intro fuel
  induction fuel with
  | zero =>
    intro codes r p k hlen _
    have : codes = [] := List.eq_nil_of_length_eq_zero (Nat.le_zero.mp hlen)
    subst this; rfl
  | succ fuel ih =>
    intro codes r p k hlen hk
    cases codes with
    | nil => rfl
    | cons c cs =>
      rcases Nat.lt_or_ge k 14 with hk14 | hk14
      · -- k < 14: the next row still fits on the current page
        have hbrk : ¬(pdfPageHeight - pdfMargin <
            pdfMargin + pdfCellHeight * k + pdfCellHeight) := by
          simp only [pdfPageHeight, pdfMargin, pdfCellHeight]; omega
        simp only [pdfLayoutAux, if_neg hbrk]
        have hfn : (fun jc : Nat × String =>
              (⟨jc.2, p, r, jc.1, pdfMargin + pdfCellHeight * k⟩ : PdfPlacement))
            = (fun jc : Nat × String => (⟨jc.2, p + k / 14, r, jc.1,
              pdfMargin + pdfCellHeight * (k % 14)⟩ : PdfPlacement)) := by
          funext jc
          rw [Nat.div_eq_of_lt hk14, Nat.mod_eq_of_lt hk14]
          simp
        rw [hfn]
        rw [pdf_enum_map_eq cols r p k ((c :: cs).take cols)
          (List.length_take_le cols (c :: cs))]
        have hy : pdfMargin + pdfCellHeight * k + pdfCellHeight =
            pdfMargin + pdfCellHeight * (k + 1) := by ring
        rw [hy]
        rw [ih ((c :: cs).drop cols) (r + 1) p (k + 1)
          (by simp only [List.length_drop, List.length_cons] at *; omega)
          (by omega)]
        conv_rhs => rw [← List.take_append_drop cols (c :: cs)]
        rw [pdfPlacedFrom_append]
        rcases Nat.lt_or_ge cs.length.succ cols with hlc | hlc
        · have hdrop : (c :: cs).drop cols = [] := by
            apply List.drop_eq_nil_of_le
            simp only [List.length_cons]; omega
          rw [hdrop, pdfPlacedFrom_nil, pdfPlacedFrom_nil]
        · have htl : (0 : Nat) + ((c :: cs).take cols).length = cols + 0 := by
            simp only [List.length_take, List.length_cons]
            omega
          rw [htl, pdfPlacedFrom_shift cols r p k hc]
          rw [Nat.div_eq_of_lt hk14, Nat.mod_eq_of_lt hk14]
          simp
      · -- k = 14: the page is full, a page break occurs first
        have hkeq : k = 14 := by omega
        subst hkeq
        have hbrk : pdfPageHeight - pdfMargin <
            pdfMargin + pdfCellHeight * 14 + pdfCellHeight := by
          simp only [pdfPageHeight, pdfMargin, pdfCellHeight]; omega
        simp only [pdfLayoutAux, if_pos hbrk]
        have hfn : (fun jc : Nat × String =>
              (⟨jc.2, p + 1, r, jc.1, pdfMargin⟩ : PdfPlacement))
            = (fun jc : Nat × String => (⟨jc.2, p + 14 / 14, r, jc.1,
              pdfMargin + pdfCellHeight * (14 % 14)⟩ : PdfPlacement)) := by
          funext jc
          norm_num
        rw [hfn]
        rw [pdf_enum_map_eq cols r p 14 ((c :: cs).take cols)
          (List.length_take_le cols (c :: cs))]
        have hy : pdfMargin + pdfCellHeight =
            pdfMargin + pdfCellHeight * (0 + 1) := by ring
        rw [hy]
        rw [ih ((c :: cs).drop cols) (r + 1) (p + 1) (0 + 1)
          (by simp only [List.length_drop, List.length_cons] at *; omega)
          (by omega)]
        conv_rhs => rw [← List.take_append_drop cols (c :: cs)]
        rw [pdfPlacedFrom_append]
        rcases Nat.lt_or_ge cs.length.succ cols with hlc | hlc
        · have hdrop : (c :: cs).drop cols = [] := by
            apply List.drop_eq_nil_of_le
            simp only [List.length_cons]; omega
          rw [hdrop, pdfPlacedFrom_nil, pdfPlacedFrom_nil]
        · have htl : (0 : Nat) + ((c :: cs).take cols).length = cols + 0 := by
            simp only [List.length_take, List.length_cons]
            omega
          rw [htl, pdfPlacedFrom_shift cols r p 14 hc]

lemma createPdfDocumentPlacements_closed (codes : List String) (cols : Nat)
    (hc : 1 ≤ cols) :
    createPdfDocumentPlacements codes cols = pdfPlacedFrom cols 0 0 0 0 codes := by
  unfold createPdfDocumentPlacements
  rw [show pdfMargin = pdfMargin + pdfCellHeight * 0 from by simp]
  exact pdfLayoutAux_closed cols hc codes.length codes 0 0 0 le_rfl (by omega)


lemma pdfPlacedFrom_length (cols r p k : Nat) (codes : List String) :
    ∀ m, (pdfPlacedFrom cols r p k m codes).length = codes.length := by
  induction codes with
  | nil => intro m; rfl
  | cons c cs ih => intro m; simp [pdfPlacedFrom, ih (m + 1)]

lemma pdfPlacedFrom_getElem (cols r p k : Nat) (codes : List String) :
    ∀ m i (hi : i < codes.length)
      (h : i < (pdfPlacedFrom cols r p k m codes).length),
      (pdfPlacedFrom cols r p k m codes)[i] =
        pdfPlace cols r p k (m + i) codes[i] := by
  induction codes with
  | nil => intro m i hi; simp at hi
  | cons c cs ih =>
    intro m i hi h
    cases i with
    | zero => rfl
    | succ j =>
      have hj : j < cs.length := by simpa using hi
      simp only [pdfPlacedFrom, List.getElem_cons_succ]
      rw [ih (m + 1) j hj (by simpa [pdfPlacedFrom_length] using hj)]
      have harith : m + 1 + j = m + (j + 1) := by omega
      rw [harith]

lemma pdfPlacedFrom_map_code (cols r p k : Nat) (codes : List String) :
    ∀ m, (pdfPlacedFrom cols r p k m codes).map (fun pl => pl.code) = codes := by
  induction codes with
  | nil => intro m; rfl
  | cons c cs ih =>
    intro m
    simp only [pdfPlacedFrom, List.map_cons, ih (m + 1)]
    rfl

lemma pdfPlacedFrom_mem (cols r p k : Nat) (codes : List String) :
    ∀ m pl, pl ∈ pdfPlacedFrom cols r p k m codes →
      ∃ i, ∃ hi : i < codes.length,
        pl = pdfPlace cols r p k (m + i) codes[i] := by
  induction codes with
  | nil => intro m pl h; simp [pdfPlacedFrom] at h
  | cons c cs ih =>
    intro m pl h
    rcases List.mem_cons.mp h with h0 | h0
    · exact ⟨0, by simp, by simpa using h0⟩
    · rcases ih (m + 1) pl h0 with ⟨i, hi, heq⟩
      refine ⟨i + 1, by simpa using hi, ?_⟩
      have harith : m + (i + 1) = m + 1 + i := by omega
      rw [harith]
      simpa using heq

lemma docxRowCells_length (barcodes : List String) (cols i : Nat) :
    (docxRowCells barcodes cols i).length = cols := by
  simp [docxRowCells]

lemma docxRowCells_getElem (barcodes : List String) (cols i j : Nat)
    (h : j < (docxRowCells barcodes cols i).length) :
    (docxRowCells barcodes cols i)[j] =
      if hh : i + j < barcodes.length then
        ⟨some (barcodes.get ⟨i + j, hh⟩), false⟩
      else ⟨none, false⟩ := by
  unfold docxRowCells
  simp only [List.getElem_map, List.getElem_range]

lemma docxRowsAux_step (barcodes : List String) (cols fuel i : Nat)
    (hi : i < barcodes.length) :
    docxRowsAux barcodes cols (fuel + 1) i =
      docxRowCells barcodes cols i :: docxRowsAux barcodes cols fuel (i + cols) := by
  simp [docxRowsAux, hi]

lemma docxRowsAux_stop (barcodes : List String) (cols fuel i : Nat)
    (hi : ¬ i < barcodes.length) :
    docxRowsAux barcodes cols (fuel + 1) i = [] := by
  simp [docxRowsAux, hi]

lemma docxRowsAux_getElem (barcodes : List String) (cols : Nat) :
    ∀ fuel i t (h : t < (docxRowsAux barcodes cols fuel i).length),
      (docxRowsAux barcodes cols fuel i)[t] =
        docxRowCells barcodes cols (i + t * cols) := by
  intro fuel
  induction fuel with
  | zero => intro i t h; simp [docxRowsAux] at h
  | succ fuel ih =>
    intro i t h
    by_cases hi : i < barcodes.length
    · have hstep := docxRowsAux_step barcodes cols fuel i hi
      rw [List.getElem_of_eq hstep h]
      cases t with
      | zero => simp only [List.getElem_cons_zero, Nat.zero_mul, Nat.add_zero]
      | succ s =>
        have hs : s < (docxRowsAux barcodes cols fuel (i + cols)).length := by
          have := h
          rw [hstep] at this
          simpa using this
        simp only [List.getElem_cons_succ]
        rw [ih (i + cols) s hs]
        have harith : i + cols + s * cols = i + (s + 1) * cols := by ring
        rw [harith]
    · exfalso
      rw [docxRowsAux_stop barcodes cols fuel i hi] at h
      simp at h

/-- Claim C2: in the layout produced from an input-ordered sequence of
assets with `columnsPerRow ≥ 1`, the placement at input index `i` sits
at row `i / cols` and column `i % cols`, so
`row * columnsPerRow + column` recovers the input index; placements are
emitted in input order; no two placements share a
`(pageIndex, row, column)` cell; and in the docx table the cell at
`(row t, column j)` carries exactly the asset of input index
`t * columnsPerRow + j` (or is an empty padding cell past the end). -/
theorem c2_grid_index_invariant (codes : List String) (cols : Nat)
    (hc : 1 ≤ cols) :
    ((createPdfDocumentPlacements codes cols).map (fun pl => pl.code) = codes) ∧
    (∀ i, ∀ h : i < (createPdfDocumentPlacements codes cols).length,
      (createPdfDocumentPlacements codes cols)[i].row * cols +
        (createPdfDocumentPlacements codes cols)[i].col = i) ∧
    List.Pairwise
      (fun a b => ¬(a.page = b.page ∧ a.row = b.row ∧ a.col = b.col))
      (createPdfDocumentPlacements codes cols) ∧
    (∀ t j, ∀ ht : t < (createDocumentRows codes cols).length,
      ∀ hj : j < (createDocumentRows codes cols)[t].length,
        (createDocumentRows codes cols)[t][j] =
          if h : t * cols + j < codes.length then
            ⟨some (codes.get ⟨t * cols + j, h⟩), false⟩
          else ⟨none, false⟩) := by
  have hclosed := createPdfDocumentPlacements_closed codes cols hc
  refine ⟨?_, ?_, ?_, ?_⟩
  · rw [hclosed]
    exact pdfPlacedFrom_map_code cols 0 0 0 codes 0
  · simp only [hclosed]
    intro i h
    have hi : i < codes.length := by
      rwa [pdfPlacedFrom_length] at h
    rw [pdfPlacedFrom_getElem cols 0 0 0 codes 0 i hi h]
    simp only [pdfPlace, Nat.zero_add]
    exact Nat.div_add_mod' i cols
  · simp only [hclosed]
    rw [List.pairwise_iff_getElem]
    intro i j hi hj hij
    have hi' : i < codes.length := by rwa [pdfPlacedFrom_length] at hi
    have hj' : j < codes.length := by rwa [pdfPlacedFrom_length] at hj
    rw [pdfPlacedFrom_getElem cols 0 0 0 codes 0 i hi' hi,
      pdfPlacedFrom_getElem cols 0 0 0 codes 0 j hj' hj]
    simp only [pdfPlace, Nat.zero_add]
    rintro ⟨_, hrow, hcol⟩
    have heq : i = j := by
      conv_lhs => rw [← Nat.div_add_mod i cols]
      conv_rhs => rw [← Nat.div_add_mod j cols]
      rw [hrow, hcol]
    omega
  · intro t j ht hj
    simp only [createDocumentRows] at ht hj ⊢
    have hrow := docxRowsAux_getElem codes cols codes.length 0 t ht
    rw [List.getElem_of_eq hrow hj, docxRowCells_getElem]
    simp only [Nat.zero_add]

/-- Witness for C2 at `columnsPerRow = 7` and eight concrete assets. -/
theorem c2_witness :
    (1 ≤ 7) ∧
    ((createPdfDocumentPlacements ["A", "B", "C", "D", "E", "F", "G", "H"] 7).map
      (fun pl => pl.code) = ["A", "B", "C", "D", "E", "F", "G", "H"]) :=
  ⟨by decide,
    (c2_grid_index_invariant ["A", "B", "C", "D", "E", "F", "G", "H"] 7 (by decide)).1⟩

lemma createPdfDocumentPlacements_page_row (codes : List String) (cols : Nat)
    (hc : 1 ≤ cols) :
    ∀ pl ∈ createPdfDocumentPlacements codes cols,
      pl.page = pl.row / 14 ∧
        pl.y = pdfMargin + pdfCellHeight * (pl.row % 14) := by
  intro pl hpl
  rw [createPdfDocumentPlacements_closed codes cols hc] at hpl
  rcases pdfPlacedFrom_mem cols 0 0 0 codes 0 pl hpl with ⟨i, hi, rfl⟩
  simp [pdfPlace]

/-- Claim C4: under the paginated (PDF) profile, the number of distinct
rows drawn on any page never exceeds `floor(usablePageHeight / rowHeight)`
(= 14); a page break happens exactly when the next row would overflow,
so every placement's page index is `row / capacity`; and the first row
of each new page (row index a multiple of the capacity) is drawn at the
top margin. -/
theorem c4_pagination_invariant (codes : List String) (cols : Nat)
    (hc : 1 ≤ cols) :
    (∀ q, rowsOnPage (createPdfDocumentPlacements codes cols) q ≤
        (pdfPageHeight - 2 * pdfMargin) / pdfCellHeight) ∧
    (∀ pl ∈ createPdfDocumentPlacements codes cols,
      pl.page = pl.row / ((pdfPageHeight - 2 * pdfMargin) / pdfCellHeight) ∧
        pl.y = pdfMargin + pdfCellHeight *
          (pl.row % ((pdfPageHeight - 2 * pdfMargin) / pdfCellHeight))) ∧
    (∀ pl ∈ createPdfDocumentPlacements codes cols,
      pl.row % ((pdfPageHeight - 2 * pdfMargin) / pdfCellHeight) = 0 →
        pl.y = pdfMargin) := by
  have hcap : (pdfPageHeight - 2 * pdfMargin) / pdfCellHeight = 14 := by
    norm_num [pdfPageHeight, pdfMargin, pdfCellHeight]
  have hmem := createPdfDocumentPlacements_page_row codes cols hc
  rw [hcap]
  refine ⟨?_, hmem, ?_⟩
  · intro q
    unfold rowsOnPage
    have hnodup := List.nodup_dedup
      (((createPdfDocumentPlacements codes cols).filter
        (fun pl => pl.page == q)).map (fun pl => pl.row))
    have hsub : (((createPdfDocumentPlacements codes cols).filter
        (fun pl => pl.page == q)).map (fun pl => pl.row)).dedup ⊆
          List.range' (14 * q) 14 := by
    -- every drawn row index on page q lies in [14q, 14q + 14)
      intro x hx
      have hx' := List.mem_dedup.mp hx
      rcases List.mem_map.mp hx' with ⟨pl, hpl, rfl⟩
      have hplmem := (List.mem_filter.mp hpl).1
      have hpq : pl.page = q := by
        have := (List.mem_filter.mp hpl).2
        simpa using this
      have hdiv : pl.row / 14 = q := by
        rw [← (hmem pl hplmem).1, hpq]
      rw [List.mem_range'_1]
      omega
    have hle := (List.Nodup.subperm hnodup hsub).length_le
    simpa using hle
  · intro pl hpl hzero
    have := (hmem pl hpl).2
    rw [hzero] at this
    simpa using this

/-- Witness for C4 at `columnsPerRow = 7` and two concrete assets. -/
theorem c4_witness :
    (1 ≤ 7) ∧
    rowsOnPage (createPdfDocumentPlacements ["A", "B"] 7) 0 ≤
      (pdfPageHeight - 2 * pdfMargin) / pdfCellHeight :=
  ⟨by decide, (c4_pagination_invariant ["A", "B"] 7 (by decide)).1 0⟩

lemma length_filter_range_not_lt (len i : Nat) :
    ∀ n, ((List.range n).filter (fun j => ! decide (i + j < len))).length =
      n - min n (len - i) := by
  intro n
  induction n with
  | zero => simp
  | succ n ih =>
    rw [List.range_succ, List.filter_append, List.length_append, ih]
    by_cases h : i + n < len
    · simp [h]
      omega
    · simp [h]
      omega

lemma docxRowCells_empty_count (barcodes : List String) (cols i : Nat) :
    ((docxRowCells barcodes cols i).filter
        (fun cell => cell.content.isNone)).length =
      cols - min cols (barcodes.length - i) := by
  unfold docxRowCells
  rw [List.filter_map, List.length_map]
  have hpred : ((fun cell : DocxCell => cell.content.isNone) ∘
      (fun j => if h : i + j < barcodes.length then
        (⟨some (barcodes.get ⟨i + j, h⟩), false⟩ : DocxCell)
      else ⟨none, false⟩)) = (fun j => ! decide (i + j < barcodes.length)) := by
    funext j
    by_cases h : i + j < barcodes.length <;> simp [h]
  rw [hpred, length_filter_range_not_lt]

lemma docxRowsAux_empty_count (barcodes : List String) (cols : Nat)
    (hc : 1 ≤ cols) :
    ∀ fuel i, barcodes.length ≤ i + fuel →
      emptyCellCount (docxRowsAux barcodes cols fuel i) =
        if i < barcodes.length then
          (cols - (barcodes.length - i) % cols) % cols
        else 0 := by
  intro fuel
  induction fuel with
  | zero =>
    intro i hlen
    have hni : ¬ i < barcodes.length := by omega
    simp [docxRowsAux, emptyCellCount, hni]
  | succ fuel ih =>
    intro i hlen
    by_cases hi : i < barcodes.length
    · rw [docxRowsAux_step barcodes cols fuel i hi, if_pos hi]
      simp only [emptyCellCount] at ih ⊢
      rw [List.map_cons, List.sum_cons, docxRowCells_empty_count,
        ih (i + cols) (by omega)]
      by_cases h2 : i + cols < barcodes.length
      · rw [if_pos h2]
        have hmin : min cols (barcodes.length - i) = cols := by omega
        rw [hmin]
        have hmod : (barcodes.length - i) % cols =
            (barcodes.length - (i + cols)) % cols := by
          have h3 : barcodes.length - i =
              cols + (barcodes.length - (i + cols)) := by omega
          rw [h3, Nat.add_mod_left]
        rw [hmod]
        omega
      · rw [if_neg h2]
        have hmin : min cols (barcodes.length - i) = barcodes.length - i := by
          omega
        rw [hmin]
        rcases Nat.lt_or_ge (barcodes.length - i) cols with hlt | hge
        · rw [Nat.mod_eq_of_lt hlt,
            Nat.mod_eq_of_lt (by omega : cols - (barcodes.length - i) < cols)]
          omega
        · have heq : barcodes.length - i = cols := by omega
          rw [heq, Nat.mod_self, Nat.sub_zero, Nat.mod_self]
          omega
    · rw [docxRowsAux_stop barcodes cols fuel i hi, if_neg hi]
      simp [emptyCellCount]

lemma createDocumentRows_empty_count (codes : List String) (cols : Nat)
    (hc : 1 ≤ cols) :
    emptyCellCount (createDocumentRows codes cols) =
      (cols - codes.length % cols) % cols := by
  unfold createDocumentRows
  rw [docxRowsAux_empty_count codes cols hc codes.length 0 (by omega)]
  by_cases h : 0 < codes.length
  · rw [if_pos h]
    simp
  · rw [if_neg h]
    have hlen : codes.length = 0 := by omega
    rw [hlen]
    simp [Nat.mod_self]

lemma docxRowsAux_mem (barcodes : List String) (cols : Nat) :
    ∀ fuel i row, row ∈ docxRowsAux barcodes cols fuel i →
      ∃ s, row = docxRowCells barcodes cols s := by
  intro fuel
  induction fuel with
  | zero => intro i row h; simp [docxRowsAux] at h
  | succ fuel ih =>
    intro i row h
    by_cases hi : i < barcodes.length
    · rw [docxRowsAux_step barcodes cols fuel i hi] at h
      rcases List.mem_cons.mp h with h0 | h0
      · exact ⟨i, h0⟩
      · exact ih (i + cols) row h0
    · rw [docxRowsAux_stop barcodes cols fuel i hi] at h
      simp at h

lemma docxRowCells_border (barcodes : List String) (cols i : Nat) :
    ∀ cell ∈ docxRowCells barcodes cols i, cell.hasVisibleBorder = false := by
  intro cell hcell
  unfold docxRowCells at hcell
  rcases List.mem_map.mp hcell with ⟨j, _, rfl⟩
  by_cases h : i + j < barcodes.length <;> simp [h]

lemma docxRowsAux_ne_nil (barcodes : List String) (cols fuel i : Nat)
    (h : docxRowsAux barcodes cols fuel i ≠ []) : i < barcodes.length := by
  cases fuel with
  | zero => simp [docxRowsAux] at h
  | succ fuel =>
    by_cases hi : i < barcodes.length
    · exact hi
    · exact absurd (docxRowsAux_stop barcodes cols fuel i hi) h

lemma docxRowsAux_dropLast_full (barcodes : List String) (cols : Nat) :
    ∀ fuel i, ∀ row ∈ (docxRowsAux barcodes cols fuel i).dropLast,
      (row.filter (fun cell => cell.content.isNone)).length = 0 := by
  intro fuel
  induction fuel with
  | zero => intro i row h; simp [docxRowsAux] at h
  | succ fuel ih =>
    intro i row h
    by_cases hi : i < barcodes.length
    · rw [docxRowsAux_step barcodes cols fuel i hi] at h
      by_cases hrest : docxRowsAux barcodes cols fuel (i + cols) = []
      · rw [hrest] at h
        simp at h
      · rw [List.dropLast_cons_of_ne_nil hrest] at h
        rcases List.mem_cons.mp h with h0 | h0
        · subst h0
          rw [docxRowCells_empty_count]
          have hnext : i + cols < barcodes.length :=
            docxRowsAux_ne_nil barcodes cols fuel (i + cols) hrest
          omega
        · exact ih (i + cols) row h0
    · rw [docxRowsAux_stop barcodes cols fuel i hi] at h
      simp at h

lemma excelWritesAux_step (codes : List String) (cols fuel i rowIndex : Nat)
    (hi : i < codes.length) :
    excelWritesAux codes cols (fuel + 1) i rowIndex =
      (((codes.drop i).take cols).enum.map
          (fun jc => (⟨rowIndex + 1, jc.1 + 1, jc.2⟩ : XlsxCellWrite)))
        ++ excelWritesAux codes cols fuel (i + cols) (rowIndex + 2) := by
  simp [excelWritesAux, hi]

lemma excelWritesAux_stop (codes : List String) (cols fuel i rowIndex : Nat)
    (hi : ¬ i < codes.length) :
    excelWritesAux codes cols (fuel + 1) i rowIndex = [] := by
  simp [excelWritesAux, hi]

lemma excelWritesAux_length (codes : List String) (cols : Nat)
    (hc : 1 ≤ cols) :
    ∀ fuel i rowIndex, codes.length ≤ i + fuel →
      (excelWritesAux codes cols fuel i rowIndex).length = codes.length - i := by
  intro fuel
  induction fuel with
  | zero =>
    intro i rowIndex hlen
    simp only [excelWritesAux, List.length_nil]
    omega
  | succ fuel ih =>
    intro i rowIndex hlen
    by_cases hi : i < codes.length
    · rw [excelWritesAux_step codes cols fuel i rowIndex hi]
      rw [List.length_append, List.length_map, List.enum_length,
        List.length_take, List.length_drop, ih (i + cols) (rowIndex + 2) (by omega)]
      omega
    · rw [excelWritesAux_stop codes cols fuel i rowIndex hi]
      simp only [List.length_nil]
      omega

lemma createExcelCellWrites_length (codes : List String) (cols : Nat)
    (hc : 1 ≤ cols) :
    (createExcelCellWrites codes cols).length = codes.length := by
  unfold createExcelCellWrites
  rw [excelWritesAux_length codes cols hc codes.length 0 1 (by omega)]
  omega

/-- Counterexample to C5's spreadsheet clause at a concrete input:
with 8 codes and `columnsPerRow = 7`, `createExcelDocument` performs
exactly 8 cell writes, one per asset, each carrying an asset; the short
final row block (its text cells live in worksheet row 4) receives a
single write instead of being padded to 7 cells — no empty placeholder
cell is materialized by the spreadsheet writer. -/
theorem c5_spreadsheet_no_padding :
    (createExcelCellWrites ["A", "B", "C", "D", "E", "F", "G", "H"] 7).length = 8 ∧
    ((createExcelCellWrites ["A", "B", "C", "D", "E", "F", "G", "H"] 7).filter
      (fun w => w.rowIdx == 4)).length = 1 ∧
    (∀ w ∈ createExcelCellWrites ["A", "B", "C", "D", "E", "F", "G", "H"] 7,
      w.code ∈ (["A", "B", "C", "D", "E", "F", "G", "H"] : List String)) := by
  decide

/-- Claim C5 as amended: the word-processor (docx) format pads the final
short row to exactly `columnsPerRow` cells with empty, borderless
placeholder cells carrying no asset (full rows receive none); the
paginated PDF format stops drawing early — one placement per asset, no
placeholder; and the spreadsheet format likewise writes exactly one
cell per asset and materializes no placeholder. With 21 assets and
`columnsPerRow = 7` (an exact multiple) the docx table has 3 rows and
zero placeholder cells, and the PDF layout fits on a single page. -/
theorem c5_short_row_by_format (codes : List String) (cols : Nat)
    (hc : 1 ≤ cols) :
    (∀ row ∈ createDocumentRows codes cols, row.length = cols ∧
      ∀ cell ∈ row, cell.hasVisibleBorder = false) ∧
    emptyCellCount (createDocumentRows codes cols) =
      (cols - codes.length % cols) % cols ∧
    (∀ row ∈ (createDocumentRows codes cols).dropLast,
      (row.filter (fun cell => cell.content.isNone)).length = 0) ∧
    (createPdfDocumentPlacements codes cols).length = codes.length ∧
    (createExcelCellWrites codes cols).length = codes.length ∧
    (createDocumentRows (List.replicate 21 "C") 7).length = 3 ∧
    emptyCellCount (createDocumentRows (List.replicate 21 "C") 7) = 0 ∧
    (∀ pl ∈ createPdfDocumentPlacements (List.replicate 21 "C") 7,
      pl.page = 0) := by
  refine ⟨?_, createDocumentRows_empty_count codes cols hc, ?_, ?_, 
    createExcelCellWrites_length codes cols hc, by decide, by decide, by decide⟩
  · intro row hrow
    rcases docxRowsAux_mem codes cols codes.length 0 row hrow with ⟨s, rfl⟩
    exact ⟨docxRowCells_length codes cols s, docxRowCells_border codes cols s⟩
  · exact docxRowsAux_dropLast_full codes cols codes.length 0
  · rw [createPdfDocumentPlacements_closed codes cols hc]
    exact pdfPlacedFrom_length cols 0 0 0 codes 0

/-- Witness for the amended C5 at `columnsPerRow = 7` and two assets. -/
theorem c5_witness :
    (1 ≤ 7) ∧
    (createPdfDocumentPlacements ["A", "B"] 7).length =
      (["A", "B"] : List String).length :=
  ⟨by decide, (c5_short_row_by_format ["A", "B"] 7 (by decide)).2.2.2.1⟩

lemma filter_cons_split {α : Type} (g : α → Bool) (a : α) (as : List α) :
    (a :: as).filter g = (if g a then [a] else []) ++ as.filter g := by
  by_cases h : g a <;> simp [List.filter_cons, h]

lemma trimTrailingWs_append_cr (l : List Char) :
    trimTrailingWs (l ++ ['\r']) = trimTrailingWs l := by
  unfold trimTrailingWs
  have hcr : isJsSpace '\r' = true := by decide
  simp [List.reverse_append, List.dropWhile_cons, hcr]

lemma jsTrim_append_cr (l : List Char) : jsTrim (l ++ ['\r']) = jsTrim l := by
  unfold jsTrim
  rw [trimTrailingWs_append_cr]

lemma splitOnNl_no_nl (l : List Char) (h : '\n' ∉ l) : splitOnNl l = [l] := by
  induction l with
  | nil => rfl
  | cons c cs ih =>
    have hc : ¬ c = '\n' := fun heq => h (heq ▸ List.mem_cons_self c cs)
    have hcs : '\n' ∉ cs := fun hm => h (List.mem_cons_of_mem c hm)
    simp only [splitOnNl, if_neg hc]
    rw [ih hcs]

lemma splitOnNl_append_nl (l rest : List Char) (h : '\n' ∉ l) :
    splitOnNl (l ++ '\n' :: rest) = l :: splitOnNl rest := by
  induction l with
  | nil => simp [splitOnNl]
  | cons c cs ih =>
    have hc : ¬ c = '\n' := fun heq => h (heq ▸ List.mem_cons_self c cs)
    have hcs : '\n' ∉ cs := fun hm => h (List.mem_cons_of_mem c hm)
    simp only [List.cons_append, splitOnNl, if_neg hc, List.append_eq]
    rw [ih hcs]

lemma extractCodes_step (l rest : List Char) (h : '\n' ∉ l) :
    extractCodes (l ++ '\n' :: rest) =
      (if decide (0 < (String.mk (jsTrim l)).length) then [String.mk (jsTrim l)]
        else []) ++ extractCodes rest := by
  unfold extractCodes
  rw [splitOnNl_append_nl l rest h, List.map_cons, filter_cons_split]

lemma extractCodes_single (l : List Char) (h : '\n' ∉ l) :
    extractCodes l =
      (if decide (0 < (String.mk (jsTrim l)).length) then [String.mk (jsTrim l)]
        else []) := by
  unfold extractCodes
  rw [splitOnNl_no_nl l h, List.map_cons, List.map_nil, filter_cons_split,
    List.filter_nil, List.append_nil]

lemma extractCodes_joinWithSep_lf (lines : List (List Char))
    (h : ∀ l ∈ lines, '\n' ∉ l) :
    extractCodes (joinWithSep ['\n'] lines) =
      (lines.map (fun l => String.mk (jsTrim l))).filter
        (fun s => decide (0 < s.length)) := by
  induction lines with
  | nil => rfl
  | cons l ls ih =>
    have hl := h l (List.mem_cons_self l ls)
    have hls : ∀ x ∈ ls, '\n' ∉ x := fun x hx => h x (List.mem_cons_of_mem l hx)
    cases ls with
    | nil =>
      show extractCodes l = _
      rw [extractCodes_single l hl, List.map_cons, List.map_nil,
        filter_cons_split, List.filter_nil, List.append_nil]
    | cons l2 ls2 =>
      have hjoin : joinWithSep ['\n'] (l :: l2 :: ls2) =
          l ++ '\n' :: joinWithSep ['\n'] (l2 :: ls2) := by
        show l ++ ['\n'] ++ _ = _
        simp
      rw [hjoin, extractCodes_step l _ hl, ih hls]
      conv_rhs => rw [List.map_cons, filter_cons_split]

lemma extractCodes_joinWithSep_crlf (lines : List (List Char))
    (h : ∀ l ∈ lines, '\n' ∉ l ∧ '\r' ∉ l) :
    extractCodes (joinWithSep ['\r', '\n'] lines) =
      (lines.map (fun l => String.mk (jsTrim l))).filter
        (fun s => decide (0 < s.length)) := by
  induction lines with
  | nil => rfl
  | cons l ls ih =>
    have hl := h l (List.mem_cons_self l ls)
    have hls : ∀ x ∈ ls, '\n' ∉ x ∧ '\r' ∉ x :=
      fun x hx => h x (List.mem_cons_of_mem l hx)
    cases ls with
    | nil =>
      show extractCodes l = _
      rw [extractCodes_single l hl.1, List.map_cons, List.map_nil,
        filter_cons_split, List.filter_nil, List.append_nil]
    | cons l2 ls2 =>
      have hjoin : joinWithSep ['\r', '\n'] (l :: l2 :: ls2) =
          (l ++ ['\r']) ++ '\n' :: joinWithSep ['\r', '\n'] (l2 :: ls2) := by
        show l ++ ['\r', '\n'] ++ _ = _
        simp
      have hnonl : '\n' ∉ l ++ ['\r'] := by
        intro hm
        rcases List.mem_append.mp hm with hm | hm
        · exact hl.1 hm
        · simp at hm
      rw [hjoin, extractCodes_step (l ++ ['\r']) _ hnonl, jsTrim_append_cr,
        ih hls]
      conv_rhs => rw [List.map_cons, filter_cons_split]

lemma mem_of_mem_dropWhile {α : Type} (p : α → Bool) (l : List α) :
    ∀ a ∈ List.dropWhile p l, a ∈ l :=
  fun _ ha => (List.dropWhile_sublist _).subset ha

lemma jsTrim_subset (l : List Char) : ∀ c ∈ jsTrim l, c ∈ l := by
  intro c hc
  unfold jsTrim trimLeadingWs trimTrailingWs at hc
  have h1 := mem_of_mem_dropWhile isJsSpace _ c hc
  have h2 := List.mem_reverse.mp h1
  have h3 := mem_of_mem_dropWhile isJsSpace _ c h2
  exact List.mem_reverse.mp h3

lemma jsTrim_all_ws (l : List Char) (h : l.all isJsSpace = true) :
    jsTrim l = [] := by
  unfold jsTrim trimLeadingWs trimTrailingWs
  have hrev : List.dropWhile isJsSpace l.reverse = [] := by
    rw [List.dropWhile_eq_nil_iff]
    intro x hx
    exact (List.all_eq_true.mp h) x (List.mem_reverse.mp hx)
  rw [hrev]
  rfl

/-- Claim C10: for raw inputs whose lines are separated by LF or by
CRLF, `validateRequest` produces the same `{codes, errors}`: splitting
happens on `'\n'` only, but trimming removes the trailing `'\r'` (and
all surrounding whitespace), the extracted codes are the trimmed
non-blank lines in order, no extracted code contains a carriage return
or newline, and a whitespace-only line trims to the empty string, which
the length filter removes. -/
theorem c10_crlf_insensitive (lines : List (List Char))
    (h : ∀ l ∈ lines, '\n' ∉ l ∧ '\r' ∉ l) :
    validateRequest (joinWithSep ['\n'] lines) =
      validateRequest (joinWithSep ['\r', '\n'] lines) ∧
    extractCodes (joinWithSep ['\n'] lines) =
      (lines.map (fun l => String.mk (jsTrim l))).filter
        (fun s => decide (0 < s.length)) ∧
    (∀ s ∈ extractCodes (joinWithSep ['\r', '\n'] lines),
      '\r' ∉ s.data ∧ '\n' ∉ s.data) ∧
    (∀ l : List Char, l.all isJsSpace = true →
      (String.mk (jsTrim l)).length = 0) := by
  have hlf := extractCodes_joinWithSep_lf lines (fun l hl => (h l hl).1)
  have hcrlf := extractCodes_joinWithSep_crlf lines h
  refine ⟨?_, hlf, ?_, ?_⟩
  · unfold validateRequest
    rw [hlf, hcrlf]
  · intro s hs
    rw [hcrlf] at hs
    have hs' := (List.mem_filter.mp hs).1
    rcases List.mem_map.mp hs' with ⟨l, hlmem, rfl⟩
    constructor
    · intro hmem
      exact (h l hlmem).2 (jsTrim_subset l '\r' hmem)
    · intro hmem
      exact (h l hlmem).1 (jsTrim_subset l '\n' hmem)
  · intro l hws
    rw [jsTrim_all_ws l hws]
    rfl

/-- Witness for C10 on three concrete lines (one of them blank). -/
theorem c10_witness :
    (∀ l ∈ [['a', '1'], [' ', ' '], ['0', 'x']], '\n' ∉ l ∧ '\r' ∉ l) ∧
    validateRequest (joinWithSep ['\n'] [['a', '1'], [' ', ' '], ['0', 'x']]) =
      validateRequest
        (joinWithSep ['\r', '\n'] [['a', '1'], [' ', ' '], ['0', 'x']]) :=
  ⟨by decide, (c10_crlf_insensitive _ (by decide)).1⟩

lemma handleGenerateDocument_invalid {α β : Type} (st : Option MockResponse)
    (render : String → Except String α)
    (packer : List (String × α) → Except String β)
    (dialog : DialogResult) (now : JsDate) (text : List Char)
    (h : validateCodes (extractCodes text) ≠ []) :
    handleGenerateDocument st render packer dialog now text =
      ⟨st, ⟨false, some (validateCodes (extractCodes text)), none, none, none⟩,
        [], none, none⟩ := by
  have hlen : 0 < (validateCodes (extractCodes text)).length :=
    List.length_pos.mpr h
  simp only [handleGenerateDocument, if_pos hlen]

/-- Claim C3: the `generate-document` handler validates before any
image work. When validation yields at least one error, the handler
returns `{success: false, errors}` carrying the FULL error list, the
renderer is never invoked (`rendered = []`), no file is written, and no
dialog is shown — the result does not depend on the renderer, the
packer, the dialog, or the clock at all. -/
theorem c3_validation_blocks {α β : Type} (st : Option MockResponse)
    (render : String → Except String α)
    (packer : List (String × α) → Except String β)
    (dialog : DialogResult) (now : JsDate) (text : List Char)
    (h : validateCodes (extractCodes text) ≠ []) :
    handleGenerateDocument st render packer dialog now text =
      ⟨st, ⟨false, some (validateCodes (extractCodes text)), none, none, none⟩,
        [], none, none⟩ :=
  handleGenerateDocument_invalid st render packer dialog now text h

/-- Witness for C3: two leading-zero codes produce two collected errors
and block generation. -/
theorem c3_witness :
    (validateCodes (extractCodes ("04018-28\n0123456").data) ≠ []) ∧
    (validateCodes (extractCodes ("04018-28\n0123456").data)).length = 2 ∧
    handleGenerateDocument none (fun _ => Except.ok (0 : Nat))
        (fun _ => Except.ok (0 : Nat)) ⟨none, true⟩ ⟨2024, 1, 2, 3, 4, 5, 0⟩
        ("04018-28\n0123456").data =
      ⟨none, ⟨false, some (validateCodes (extractCodes ("04018-28\n0123456").data)),
        none, none, none⟩, [], none, none⟩ :=
  ⟨by decide, by decide,
    c3_validation_blocks none (fun _ => Except.ok (0 : Nat))
      (fun _ => Except.ok (0 : Nat)) ⟨none, true⟩ ⟨2024, 1, 2, 3, 4, 5, 0⟩
      ("04018-28\n0123456").data (by decide)⟩

lemma handleGenerateDocument_valid_not_pos (errors : List VError)
    (h : errors = []) : ¬ 0 < errors.length := by
  simp [h]

lemma handleGenerateDocument_error {α β : Type} (st : Option MockResponse)
    (render : String → Except String α)
    (packer : List (String × α) → Except String β)
    (dialog : DialogResult) (now : JsDate) (text : List Char)
    (hv : validateCodes (extractCodes text) = []) (tr : List String)
    (e : String)
    (hres : createDocumentResult render packer (extractCodes text) =
      (tr, Except.error e)) :
    handleGenerateDocument st render packer dialog now text =
      ⟨st, ⟨false, none, none, none, some e⟩, tr, none, none⟩ := by
  simp only [handleGenerateDocument,
    if_neg (handleGenerateDocument_valid_not_pos _ hv), hres]

lemma handleGenerateDocument_canceled {α β : Type} (st : Option MockResponse)
    (render : String → Except String α)
    (packer : List (String × α) → Except String β)
    (dialog : DialogResult) (now : JsDate) (text : List Char)
    (hv : validateCodes (extractCodes text) = []) (tr : List String) (b : β)
    (hres : createDocumentResult render packer (extractCodes text) =
      (tr, Except.ok b))
    (hcanc : ((resolveDialog st dialog).2 ||
      jsFalsyPath (resolveDialog st dialog).1) = true) :
    handleGenerateDocument st render packer dialog now text =
      ⟨st, ⟨false, none, some true, none, none⟩, tr, none,
        dialogDefaultShown st now⟩ := by
  simp only [handleGenerateDocument,
    if_neg (handleGenerateDocument_valid_not_pos _ hv), hres, hcanc,
    if_true, dialogDefaultShown]

lemma handleGenerateDocument_success {α β : Type} (st : Option MockResponse)
    (render : String → Except String α)
    (packer : List (String × α) → Except String β)
    (dialog : DialogResult) (now : JsDate) (text : List Char)
    (hv : validateCodes (extractCodes text) = []) (tr : List String) (b : β)
    (p : String)
    (hres : createDocumentResult render packer (extractCodes text) =
      (tr, Except.ok b))
    (hp : (resolveDialog st dialog).1 = some p)
    (hcanc : ((resolveDialog st dialog).2 ||
      jsFalsyPath (resolveDialog st dialog).1) = false) :
    handleGenerateDocument st render packer dialog now text =
      ⟨st, ⟨true, none, none, some p, none⟩, tr, some (p, b),
        dialogDefaultShown st now⟩ := by
  simp only [handleGenerateDocument,
    if_neg (handleGenerateDocument_valid_not_pos _ hv), hres]
  rw [hcanc]
  simp only [Bool.false_eq_true, if_false]
  rw [hp]
  simp only [dialogDefaultShown]

lemma handleGenerateDocument_shape {α β : Type} (st : Option MockResponse)
    (render : String → Except String α)
    (packer : List (String × α) → Except String β)
    (dialog : DialogResult) (now : JsDate) (text : List Char) :
    (validateCodes (extractCodes text) ≠ [] ∧
      handleGenerateDocument st render packer dialog now text =
        ⟨st, ⟨false, some (validateCodes (extractCodes text)), none, none,
          none⟩, [], none, none⟩) ∨
    (∃ tr e, validateCodes (extractCodes text) = [] ∧
      createDocumentResult render packer (extractCodes text) =
        (tr, Except.error e) ∧
      handleGenerateDocument st render packer dialog now text =
        ⟨st, ⟨false, none, none, none, some e⟩, tr, none, none⟩) ∨
    (∃ tr b, validateCodes (extractCodes text) = [] ∧
      createDocumentResult render packer (extractCodes text) =
        (tr, Except.ok b) ∧
      ((resolveDialog st dialog).2 ||
        jsFalsyPath (resolveDialog st dialog).1) = true ∧
      handleGenerateDocument st render packer dialog now text =
        ⟨st, ⟨false, none, some true, none, none⟩, tr, none,
          dialogDefaultShown st now⟩) ∨
    (∃ tr b p, validateCodes (extractCodes text) = [] ∧
      createDocumentResult render packer (extractCodes text) =
        (tr, Except.ok b) ∧
      ((resolveDialog st dialog).2 ||
        jsFalsyPath (resolveDialog st dialog).1) = false ∧
      (resolveDialog st dialog).1 = some p ∧
      handleGenerateDocument st render packer dialog now text =
        ⟨st, ⟨true, none, none, some p, none⟩, tr, some (p, b),
          dialogDefaultShown st now⟩) := by
  by_cases hv : validateCodes (extractCodes text) = []
  · rcases hres : createDocumentResult render packer (extractCodes text) with
      ⟨tr, res⟩
    cases res with
    | error e =>
      exact Or.inr (Or.inl ⟨tr, e, hv, rfl,
        handleGenerateDocument_error st render packer dialog now text hv tr e
          hres⟩)
    | ok b =>
      by_cases hcanc : ((resolveDialog st dialog).2 ||
          jsFalsyPath (resolveDialog st dialog).1) = true
      · exact Or.inr (Or.inr (Or.inl ⟨tr, b, hv, rfl, hcanc,
          handleGenerateDocument_canceled st render packer dialog now text hv
            tr b hres hcanc⟩))
      · have hcanc' : ((resolveDialog st dialog).2 ||
            jsFalsyPath (resolveDialog st dialog).1) = false := by
          cases hb : ((resolveDialog st dialog).2 ||
              jsFalsyPath (resolveDialog st dialog).1)
          · rfl
          · exact absurd hb hcanc
        rcases hfp : (resolveDialog st dialog).1 with _ | p
        · exfalso
          rw [hfp] at hcanc'
          simp [jsFalsyPath] at hcanc'
        · exact Or.inr (Or.inr (Or.inr ⟨tr, b, p, hv, rfl,
            (by rw [hfp] at hcanc'; exact hcanc'), rfl,
            handleGenerateDocument_success st render packer dialog now text hv
              tr b p hres hfp hcanc'⟩))
  · exact Or.inl ⟨hv,
      handleGenerateDocument_invalid st render packer dialog now text hv⟩

lemma handleGenerateDocument_state {α β : Type} (st : Option MockResponse)
    (render : String → Except String α)
    (packer : List (String × α) → Except String β)
    (dialog : DialogResult) (now : JsDate) (text : List Char) :
    (handleGenerateDocument st render packer dialog now text).state = st := by
  rcases handleGenerateDocument_shape st render packer dialog now text with
    ⟨_, heq⟩ | ⟨tr, e, _, _, heq⟩ | ⟨tr, b, _, _, _, heq⟩ |
    ⟨tr, b, p, _, _, _, _, heq⟩ <;> rw [heq]

/-- Claim C7: generation is atomic. A file write happens only on a
successful run, and the bytes written are exactly the buffer fully
built in memory by `createDocumentResult` before any persistence step;
when rendering, layout, or emission fails the handler returns
`{success: false, error: message}` with no file written; a canceled (or
destination-less) save dialog yields the distinct outcome
`{success: false, canceled: true}`, also with no file written. -/
theorem c7_atomic_failure {α β : Type} (st : Option MockResponse)
    (render : String → Except String α)
    (packer : List (String × α) → Except String β)
    (dialog : DialogResult) (now : JsDate) (text : List Char) :
    (∀ p b, (handleGenerateDocument st render packer dialog now text).written =
        some (p, b) →
      (handleGenerateDocument st render packer dialog now text).outcome.success
          = true ∧
        (createDocumentResult render packer (extractCodes text)).2 =
          Except.ok b ∧
        (handleGenerateDocument st render packer dialog
          now text).outcome.filePath = some p) ∧
    (∀ tr e, validateCodes (extractCodes text) = [] →
      createDocumentResult render packer (extractCodes text) =
        (tr, Except.error e) →
      handleGenerateDocument st render packer dialog now text =
        ⟨st, ⟨false, none, none, none, some e⟩, tr, none, none⟩) ∧
    (∀ tr b, validateCodes (extractCodes text) = [] →
      createDocumentResult render packer (extractCodes text) =
        (tr, Except.ok b) →
      ((resolveDialog st dialog).2 ||
        jsFalsyPath (resolveDialog st dialog).1) = true →
      handleGenerateDocument st render packer dialog now text =
        ⟨st, ⟨false, none, some true, none, none⟩, tr, none,
          dialogDefaultShown st now⟩) := by
  refine ⟨?_,
    fun tr e hv hres =>
      handleGenerateDocument_error st render packer dialog now text hv tr e
        hres,
    fun tr b hv hres hcanc =>
      handleGenerateDocument_canceled st render packer dialog now text hv tr b
        hres hcanc⟩
  intro p b hw
  rcases handleGenerateDocument_shape st render packer dialog now text with
    ⟨_, heq⟩ | ⟨tr, e, _, _, heq⟩ | ⟨tr, b', _, _, _, heq⟩ |
    ⟨tr, b', p', _, hres, _, _, heq⟩
  · rw [heq] at hw
    simp at hw
  · rw [heq] at hw
    simp at hw
  · rw [heq] at hw
    simp at hw
  · rw [heq] at hw
    simp only [Option.some.injEq, Prod.mk.injEq] at hw
    rcases hw with ⟨hpp, hbb⟩
    subst hpp
    subst hbb
    rw [heq, hres]
    exact ⟨rfl, rfl, rfl⟩

/-- Witness for C7: a failing renderer aborts with an error outcome and
no write; a canceled save dialog yields the canceled outcome and no
write. -/
theorem c7_witness :
    (validateCodes (extractCodes ("A1").data) = []) ∧
    (createDocumentResult (fun _ => Except.error "boom" : String → Except String Nat)
        (fun _ => Except.ok 0 : List (String × Nat) → Except String Nat) (extractCodes ("A1").data) =
      (["A1"], Except.error "boom")) ∧
    handleGenerateDocument none (fun _ => Except.error "boom" : String → Except String Nat)
        (fun _ => Except.ok 0 : List (String × Nat) → Except String Nat) ⟨some "f.docx", false⟩
        ⟨2024, 1, 2, 3, 4, 5, 0⟩ ("A1").data =
      ⟨none, ⟨false, none, none, none, some "boom"⟩, ["A1"], none, none⟩ ∧
    handleGenerateDocument none (fun _ => Except.ok 0 : String → Except String Nat)
        (fun _ => Except.ok 7 : List (String × Nat) → Except String Nat) ⟨none, true⟩ ⟨2024, 1, 2, 3, 4, 5, 0⟩
        ("A1").data =
      ⟨none, ⟨false, none, some true, none, none⟩, ["A1"], none,
        dialogDefaultShown none ⟨2024, 1, 2, 3, 4, 5, 0⟩⟩ :=
  ⟨by decide, rfl,
    (c7_atomic_failure none (fun _ => Except.error "boom" : String → Except String Nat)
      (fun _ => Except.ok 0 : List (String × Nat) → Except String Nat) ⟨some "f.docx", false⟩
      ⟨2024, 1, 2, 3, 4, 5, 0⟩ ("A1").data).2.1 ["A1"] "boom" (by decide) rfl,
    (c7_atomic_failure none (fun _ => Except.ok 0 : String → Except String Nat)
      (fun _ => Except.ok 7 : List (String × Nat) → Except String Nat) ⟨none, true⟩ ⟨2024, 1, 2, 3, 4, 5, 0⟩
      ("A1").data).2.2 ["A1"] 7 (by decide) rfl (by decide)⟩

/-- Claim C6 evidence (code bug): the renderer-facing entry point
forwards the chosen format, but the `generate-document` handler binds
only `codesText`, so every request follows the single docx pipeline:
the result is literally identical for any two format arguments, and a
concrete request with format `"pdf"` still writes the buffer produced
by the docx packer (here instrumented to return the laid-out codes). -/
theorem c6_format_ignored :
    (∀ (α β : Type) (st : Option MockResponse)
      (render : String → Except String α)
      (packer : List (String × α) → Except String β)
      (dialog : DialogResult) (now : JsDate) (text : List Char)
      (fmt1 fmt2 : String),
      generateRequest st render packer dialog now text fmt1 =
        generateRequest st render packer dialog now text fmt2) ∧
    (generateRequest (some ⟨some "out.pdf", false⟩)
        (fun _ => Except.ok 0 : String → Except String Nat)
        (fun barcodes => Except.ok (barcodes.map (fun bc => bc.1)) :
          List (String × Nat) → Except String (List String))
        ⟨none, true⟩ ⟨2024, 1, 2, 3, 4, 5, 0⟩ ("PDF-001").data "pdf").written =
      some ("out.pdf", ["PDF-001"]) :=
  ⟨fun _ _ _ _ _ _ _ _ _ _ => rfl, rfl⟩

/-- Claim C8: no state crosses generation requests. A run of the
`generate-document` handler leaves the module-level mock state exactly
as it found it, so a second request with the same raw text and format
behaves as a fresh one; and the outcome, the written file, and the
rendered codes of a request do not depend on the clock (only the
default filename shown in the dialog does). -/
theorem c8_no_cross_request_state {α β : Type} (st : Option MockResponse)
    (render : String → Except String α)
    (packer : List (String × α) → Except String β)
    (dialog : DialogResult) (now1 now2 : JsDate) (text : List Char)
    (fmt : String) :
    (generateRequest st render packer dialog now1 text fmt).state = st ∧
    generateRequest ((generateRequest st render packer dialog now1 text
        fmt).state) render packer dialog now2 text fmt =
      generateRequest st render packer dialog now2 text fmt ∧
    (generateRequest st render packer dialog now2 text fmt).outcome =
      (generateRequest st render packer dialog now1 text fmt).outcome ∧
    (generateRequest st render packer dialog now2 text fmt).written =
      (generateRequest st render packer dialog now1 text fmt).written ∧
    (generateRequest st render packer dialog now2 text fmt).rendered =
      (generateRequest st render packer dialog now1 text fmt).rendered := by
  simp only [generateRequest]
  have hstate := handleGenerateDocument_state st render packer dialog now1 text
  have hfields :
      (handleGenerateDocument st render packer dialog now2 text).outcome =
        (handleGenerateDocument st render packer dialog now1 text).outcome ∧
      (handleGenerateDocument st render packer dialog now2 text).written =
        (handleGenerateDocument st render packer dialog now1 text).written ∧
      (handleGenerateDocument st render packer dialog now2 text).rendered =
        (handleGenerateDocument st render packer dialog now1 text).rendered := by
    rcases handleGenerateDocument_shape st render packer dialog now1 text with
      ⟨hv, heq⟩ | ⟨tr, e, hv, hres, heq⟩ | ⟨tr, b, hv, hres, hcanc, heq⟩ |
      ⟨tr, b, p, hv, hres, hcanc, hfp, heq⟩
    · rw [heq, handleGenerateDocument_invalid st render packer dialog now2 text
        hv]
      exact ⟨rfl, rfl, rfl⟩
    · rw [heq, handleGenerateDocument_error st render packer dialog now2 text
        hv tr e hres]
      exact ⟨rfl, rfl, rfl⟩
    · rw [heq, handleGenerateDocument_canceled st render packer dialog now2
        text hv tr b hres hcanc]
      exact ⟨rfl, rfl, rfl⟩
    · rw [heq, handleGenerateDocument_success st render packer dialog now2 text
        hv tr b p hres hfp hcanc]
      exact ⟨rfl, rfl, rfl⟩
  exact ⟨hstate, by rw [hstate], hfields.1, hfields.2.1, hfields.2.2⟩

lemma jsSliceTo_append (s t : String) (n : Nat) (h : s.data.length = n) :
    jsSliceTo (s ++ t) n = s := by
  unfold jsSliceTo
  rw [String.data_append, ← h, List.take_left]

lemma isoDateString_data_length (d : JsDate) :
    (isoDateString d).data.length = 10 := by
  simp [isoDateString, pad4, pad2, String.data_append]

lemma localClockString_data_length (d : JsDate) :
    (localClockString d).data.length = 8 := by
  simp [localClockString, pad2, String.data_append]

lemma jsSliceTo_toISOString (d : JsDate) :
    jsSliceTo (toISOString d) 10 = isoDateString d := by
  unfold toISOString
  exact jsSliceTo_append _ _ 10 (isoDateString_data_length d)

lemma jsSliceTo_toTimeString (d : JsDate) :
    jsSliceTo (toTimeString d) 8 = localClockString d := by
  unfold toTimeString
  exact jsSliceTo_append _ _ 8 (localClockString_data_length d)

lemma jsReplaceColons_append (s t : String) :
    jsReplaceColons (s ++ t) = jsReplaceColons s ++ jsReplaceColons t := by
  unfold jsReplaceColons
  rw [String.data_append, List.map_append]
  rfl

lemma digitChar_mod_ten_ne_colon (n : Nat) : Nat.digitChar (n % 10) ≠ ':' := by
  have h : n % 10 < 10 := Nat.mod_lt n (by decide)
  generalize n % 10 = k at h ⊢
  interval_cases k <;> decide

lemma jsReplaceColons_pad2 (n : Nat) :
    jsReplaceColons (pad2 n) = pad2 n := by
  unfold jsReplaceColons pad2
  simp [digitChar_mod_ten_ne_colon]

lemma jsReplaceColons_colon : jsReplaceColons ":" = "-" := by decide

lemma jsReplaceColons_localClockString (d : JsDate) :
    jsReplaceColons (localClockString d) =
      pad2 (localHour d) ++ "-" ++ pad2 (localMinuteOfHour d) ++ "-" ++
        pad2 d.second := by
  unfold localClockString
  rw [jsReplaceColons_append, jsReplaceColons_append, jsReplaceColons_append,
    jsReplaceColons_append, jsReplaceColons_pad2, jsReplaceColons_pad2,
    jsReplaceColons_pad2, jsReplaceColons_colon]

/-- Counterexample to C9: at UTC 2023-12-31T23:00:00 in a zone two
hours ahead of UTC (local wall clock 2024-01-01 01:00:00), the handler's
default filename uses the UTC date `2023-12-31`, not the local date
`2024-01-01` the claim prescribes. -/
theorem c9_utc_date_counterexample :
    defaultFilename ⟨2023, 12, 31, 23, 0, 0, 120⟩ ≠
      specLocalFilename ⟨2023, 12, 31, 23, 0, 0, 120⟩ := by
  decide

/-- Claim C9 as amended: the default output filename is
`barcode_<YYYY-MM-DD>_<HH-MM-SS>.docx`, where the date part is the UTC
calendar date of the generation instant (from `toISOString`) while the
time part is the local wall-clock time (from `toTimeString`) with
colons replaced by dashes. -/
theorem c9_filename_shape (now : JsDate) :
    defaultFilename now =
      "barcode_" ++ isoDateString now ++ "_" ++
        (pad2 (localHour now) ++ "-" ++ pad2 (localMinuteOfHour now) ++ "-" ++
          pad2 now.second) ++ ".docx" := by
  unfold defaultFilename
  rw [jsSliceTo_toISOString, jsSliceTo_toTimeString,
    jsReplaceColons_localClockString]

/-- Witness for C6 at concrete format arguments `"pdf"` and `"docx"`. -/
theorem c6_witness :
    generateRequest none (fun _ => Except.ok 0 : String → Except String Nat)
        (fun _ => Except.ok 0 : List (String × Nat) → Except String Nat)
        ⟨none, true⟩ ⟨2024, 1, 2, 3, 4, 5, 0⟩ ("A1").data "pdf" =
      generateRequest none (fun _ => Except.ok 0 : String → Except String Nat)
        (fun _ => Except.ok 0 : List (String × Nat) → Except String Nat)
        ⟨none, true⟩ ⟨2024, 1, 2, 3, 4, 5, 0⟩ ("A1").data "docx" :=
  c6_format_ignored.1 Nat Nat none (fun _ => Except.ok 0)
    (fun _ => Except.ok 0) ⟨none, true⟩ ⟨2024, 1, 2, 3, 4, 5, 0⟩ ("A1").data
    "pdf" "docx"

/-- Witness for C8 at a concrete request repeated at two clock times. -/
theorem c8_witness :
    (generateRequest none (fun _ => Except.ok 0 : String → Except String Nat)
      (fun _ => Except.ok 0 : List (String × Nat) → Except String Nat)
      ⟨some "f.docx", false⟩ ⟨2024, 1, 2, 3, 4, 5, 0⟩ ("A1").data
      "docx").state = none :=
  (c8_no_cross_request_state none (fun _ => Except.ok 0)
    (fun _ => Except.ok 0) ⟨some "f.docx", false⟩ ⟨2024, 1, 2, 3, 4, 5, 0⟩
    ⟨2024, 6, 7, 8, 9, 10, 60⟩ ("A1").data "docx").1
